import Mathlib

/-!
Verification development for the `hungtcs/monkey-lang` interpreter.

The Go source is shallowly embedded:

* `syntax` package — AST node types (`syntax.go`), the lexer's `readNumber`
  (`lexer.go`) and `parseIntegerLiteral` (`parser.go`).
* `monkey` package — runtime values (`value.go`), environments (`env.go`)
  and the tree-walking evaluator (`eval.go`).

Modelling conventions:

* Go `int64` is `Int` with explicit two's-complement reduction (`wrap64`)
  exactly where the Go arithmetic can overflow.
* Go `string` is a byte list `List Nat` (`MStr`); `utf8.RuneCountInString`
  is modelled byte-exactly by `goRuneCount`.
* A Go function returning `(Value, error)` becomes `Res Value`: `.ok` /
  `.err` mirror the two Go returns, `.crash` marks a Go runtime panic
  (index out of range, division by zero, nil dereference, explicit
  `panic(...)`) that is not recovered anywhere on the evaluation path,
  and `.timeout` is the fuel-exhaustion artifact of the shallow embedding.
* The evaluator is fuel-indexed: every recursive step consumes one unit,
  so all definitions are total and executable.
* Go's `range` over the map `MapLiteral.Pairs` visits entries in an
  unspecified order; the `Oracle` parameter supplies that order (any
  permutation of the parser's insertion order) together with the
  process-seeded `maphash` used for strings of length ≥ 12.
-/

namespace Monkey

/-- Go strings are byte sequences; `MStr` is the byte list. -/
abbrev MStr := List Nat

/-- Operator tokens of `syntax/token.go` that reach the evaluator. -/
inductive Tok : Type where
  | PLUS | MINUS | STAR | SLASH | BANG
  | EQ | NE | LT | LE | GT | GE
  deriving DecidableEq, Repr

/-- Printed operator names (`tokenNames` in `token.go`), used in error
messages. -/
def tokName : Tok → String
  | .PLUS => "+" | .MINUS => "-" | .STAR => "*" | .SLASH => "/"
  | .BANG => "!" | .EQ => "==" | .NE => "!=" | .LT => "<"
  | .LE => "<=" | .GT => ">" | .GE => ">="

mutual
/-- Expression nodes of `syntax/syntax.go`.  `mapLit` keeps the key/value
pairs in the parser's insertion order (`parseMapLiteral` inserts them into
the Go map `Pairs map[Expr]Expr` one by one; the keys are freshly
allocated nodes, hence all pairs survive, but the map forgets the order —
see `Oracle.mapIter`). -/
inductive Expr : Type where
  | ident (name : String)
  | intLit (value : Int)
  | boolLit (value : Bool)
  | strLit (value : MStr)
  | arrayLit (items : List Expr)
  | mapLit (pairs : List (Expr × Expr))
  | prefixExpr (op : Tok) (right : Expr)
  | infixExpr (op : Tok) (left : Expr) (right : Expr)
  | ifExpr (cond : Expr) (consequence : List Stmt) (alternative : Option (List Stmt))
  | funcLit (params : List String) (body : List Stmt)
  | callExpr (function : Expr) (args : List Expr)
  | indexExpr (left : Expr) (index : Expr)

/-- Statement nodes of `syntax/syntax.go` (`BlockStmt` is itself a
statement there). -/
inductive Stmt : Type where
  | exprStmt (expr : Expr)
  | letStmt (name : String) (value : Expr)
  | returnStmt (value : Expr)
  | blockStmt (stmts : List Stmt)
end

/-- Runtime values of `monkey/value.go`.  `nilV` is the nil `Value`
interface that Go's `evalBlockStmt` returns for an empty block
(`var value Value` is left nil). `returnV` is the unexported
`returnValue` wrapper. `funcV` stores the captured environment as an
index into the `Heap` below. `mapV` carries the `entries map[uint32]MapEntry`
field as an association list keyed by the 32-bit hash. -/
inductive Value : Type where
  | nullV
  | nilV
  | intV (i : Int)
  | boolV (b : Bool)
  | strV (s : MStr)
  | arrayV (items : List Value)
  | mapV (entries : List (Nat × Value × Value))
  | returnV (v : Value)
  | funcV (params : List String) (body : List Stmt) (env : Nat)
  | builtinV (name : String)

/-- Outcome of a Go call returning `(T, error)`: `.ok`/`.err` are the two
returns, `.crash` is an unrecovered runtime panic and `.timeout` is the
embedding's fuel artifact. -/
inductive Res (α : Type) : Type where
  | ok (v : α)
  | err (msg : String)
  | crash (msg : String)
  | timeout

/-- Two's-complement reduction of Go `int64` arithmetic. -/
def wrap64 (i : Int) : Int := (i + 2 ^ 63) % 2 ^ 64 - 2 ^ 63

/-- `b2i` of `monkey/values.go`. -/
def b2i (b : Bool) : Nat := if b then 1 else 0

/-- `threeway` of `monkey/values.go`: maps a three-way comparison to the
requested relational operator (the Go default branch panics, but `Compare`
only passes the six comparison tokens). -/
def threeway (op : Tok) (cmp : Int) : Bool :=
  match op with
  | .EQ => cmp = 0
  | .NE => cmp ≠ 0
  | .LE => cmp ≤ 0
  | .LT => cmp < 0
  | .GE => cmp ≥ 0
  | .GT => cmp > 0
  | _ => false

/-- Continuation byte test for UTF-8 (`0x80 ≤ c ≤ 0xBF`). -/
def isCont (c : Nat) : Bool := 0x80 ≤ c && c ≤ 0xBF

/-- Valid second-byte range of a UTF-8 sequence, per Go's
`unicode/utf8` accept table (first byte selects the range). -/
def secondOk (b c : Nat) : Bool :=
  if b = 0xE0 then 0xA0 ≤ c && c ≤ 0xBF
  else if b = 0xED then 0x80 ≤ c && c ≤ 0x9F
  else if b = 0xF0 then 0x90 ≤ c && c ≤ 0xBF
  else if b = 0xF4 then 0x80 ≤ c && c ≤ 0x8F
  else isCont c

/-- Expected sequence length from the first byte (`0` = invalid first
byte), per Go's `unicode/utf8` first-byte table. -/
def seqLen (b : Nat) : Nat :=
  if b < 0x80 then 1
  else if 0xC2 ≤ b && b ≤ 0xDF then 2
  else if 0xE0 ≤ b && b ≤ 0xEF then 3
  else if 0xF0 ≤ b && b ≤ 0xF4 then 4
  else 0

/-- Decoding loop of `utf8.RuneCountInString`, fuelled (one unit per
decoded rune; every rune consumes at least one byte, so a fuel of the
byte length is always enough): each well-formed sequence counts as one
rune; a malformed or truncated sequence yields `RuneError` with size 1,
i.e. one rune per offending byte. -/
def goRuneCountAux : Nat → MStr → Nat
  | 0, _ => 0
  | _ + 1, [] => 0
  | g + 1, b :: rest =>
    match seqLen b, rest with
    | 2, c :: r2 =>
      if secondOk b c then 1 + goRuneCountAux g r2
      else 1 + goRuneCountAux g (c :: r2)
    | 3, c :: d :: r3 =>
      if secondOk b c && isCont d then 1 + goRuneCountAux g r3
      else 1 + goRuneCountAux g (c :: d :: r3)
    | 4, c :: d :: e :: r4 =>
      if secondOk b c && isCont d && isCont e then 1 + goRuneCountAux g r4
      else 1 + goRuneCountAux g (c :: d :: e :: r4)
    | _, r => 1 + goRuneCountAux g r

/-- `utf8.RuneCountInString` (`String.Len` in `value.go`). -/
def goRuneCount (s : MStr) : Nat := goRuneCountAux s.length s

/-- Go panic message for a nil `Value` interface dereference (calling a
method on the nil returned by an empty block). -/
def nilMsg : String := "runtime error: invalid memory address or nil pointer dereference"

/-- `softHashString` of `value.go`: 32-bit FNV-1a. -/
def softHashString (s : MStr) : Nat :=
  s.foldl (fun h b => ((h ^^^ b) * 16777619) % 2 ^ 32) 2166136261

/-- Sources of behaviour the Go runtime leaves unspecified or seeds per
process: the `range` order over the `MapLiteral.Pairs` map (any
permutation of the parser's insertion order) and `maphash.String`
(used by `String.Hash` for strings of at least 12 bytes, with a
process-random seed). -/
structure Oracle where
  mapIter : List (Expr × Expr) → List (Expr × Expr)
  longHash : MStr → Nat

/-- The `Hash` method of each `Value` variant (`value.go`).
`Int.Hash` computes `12582917 * uint32(lo+3)` where `lo` is the two's
complement word of the int64; `Bool.Hash` is `b2i`; `NullType.Hash` is 0;
`String.Hash` uses the seeded `maphash` for length ≥ 12 (folding the 64
bits to 32 with `uint32(h>>32) | uint32(h)` — abstracted as an arbitrary
32-bit oracle value) and FNV-1a otherwise.  `Array.Hash`/`Map.Hash`
return the "unhashable type" error; `returnValue`, `Function` and
`BuiltinFunction` have `panic("unimplemented")` stubs. -/
def hashV (ω : Oracle) : Value → Res Nat
  | .nullV => .ok 0
  | .intV i => .ok ((12582917 * ((i + 3) % 2 ^ 32).toNat) % 2 ^ 32)
  | .boolV b => .ok (b2i b)
  | .strV s =>
    .ok (if 12 ≤ s.length then ω.longHash s % 2 ^ 32 else softHashString s)
  | .arrayV _ => .err "unhashable type: array"
  | .mapV _ => .err "unhashable type: map"
  | .returnV _ => .crash "unimplemented"
  | .funcV _ _ _ => .crash "unimplemented"
  | .builtinV _ => .crash "unimplemented"
  | .nilV => .crash nilMsg

/-- The `Type` method of each `Value` variant (`value.go`).  The
`returnValue` wrapper forwards to its inner value.  (Go would nil-panic
before ever calling `Type` on a nil interface; every call site below
guards `nilV` with a `.crash` first, so the `nilV` row is unreachable.) -/
def typeName : Value → String
  | .nullV => "null"
  | .intV _ => "int"
  | .boolV _ => "bool"
  | .strV _ => "string"
  | .arrayV _ => "array"
  | .mapV _ => "map"
  | .returnV v => typeName v
  | .funcV _ _ _ => "function"
  | .builtinV _ => "builtin_function"
  | .nilV => "nil"

/-- The `Truth` method of each `Value` variant (`value.go`):
`Int.Truth` is `i != 0`, `String.Truth` is `len(s) > 0` (byte length),
`NullType.Truth` is false, `Bool.Truth` is the value, Array/Map/
Function/Builtin are constantly true, and `returnValue` forwards to its
inner value.  Calling `Truth` on a nil interface panics. -/
def truthB : Value → Res Bool
  | .nullV => .ok false
  | .intV i => .ok (i != 0)
  | .boolV b => .ok b
  | .strV s => .ok (decide (0 < s.length))
  | .arrayV _ => .ok true
  | .mapV _ => .ok true
  | .returnV v => truthB v
  | .funcV _ _ _ => .ok true
  | .builtinV _ => .ok true
  | .nilV => .crash nilMsg

/-- One `Env` of `env.go`: a `store map[string]Value` (association list;
Go map reads/writes by string key are deterministic) and an optional
outer environment.  Environments are reference-identity objects, so the
embedding keeps them in a heap (`Heap.frames`) and represents an `*Env`
as an index into it; `NewEnv` appends a fresh frame. -/
structure Frame where
  store : List (String × Value)
  outer : Option Nat

/-- The allocation heap of environment frames (indices only ever point
to earlier frames, so chains are acyclic). -/
structure Heap where
  frames : List Frame

/-- Go map read `e.store[name]`. -/
def lookupStore : List (String × Value) → String → Option Value
  | [], _ => none
  | (k, v) :: rest, name => if k = name then some v else lookupStore rest name

/-- Go map write `e.store[name] = val` (overwrites in place). -/
def setStore : List (String × Value) → String → Value → List (String × Value)
  | [], name, v => [(name, v)]
  | (k, w) :: rest, name, v =>
    if k = name then (k, v) :: rest else (k, w) :: setStore rest name v

/-- `Env.Get` chain walk, fuelled by the frame count: `NewEnv` only ever
links a new frame to an existing one, so every outer chain is strictly
decreasing and shorter than the heap — the fuel never runs out on heaps
built by the evaluator. -/
def envGetAux (frames : List Frame) : Nat → Nat → String → Option Value
  | 0, _, _ => none
  | g + 1, e, name =>
    match frames.get? e with
    | none => none
    | some f =>
      match lookupStore f.store name with
      | some v => some v
      | none =>
        match f.outer with
        | some o => envGetAux frames g o name
        | none => none

/-- `Env.Get` of `env.go`: search the local store, then the outer chain. -/
def envGet (h : Heap) (e : Nat) (name : String) : Option Value :=
  envGetAux h.frames h.frames.length e name

/-- `Env.Set` of `env.go`: always writes to the local frame. -/
def envSet (h : Heap) (e : Nat) (name : String) (v : Value) : Heap :=
  match h.frames.get? e with
  | some f => ⟨h.frames.set e ⟨setStore f.store name v, f.outer⟩⟩
  | none => h

/-- `NewEnv` of `env.go`: allocate an empty frame with the given outer. -/
def newEnv (h : Heap) (outer : Option Nat) : Heap × Nat :=
  (⟨h.frames ++ [⟨[], outer⟩]⟩, h.frames.length)

/-- `Unary` of `eval.go`: `!` negates truthiness for every value; other
operators consult the value's `HasUnary` capability — only `Int`
implements it (`+`, `-`; Go `-i` on int64 wraps).  Every remaining
combination reaches `unknown unary operator` (the Go nil-nil fallthrough
of `Int.Unary` included). -/
def Unary (op : Tok) (x : Value) : Res Value :=
  if op = .BANG then
    match truthB x with
    | .ok t => .ok (.boolV (!t))
    | .err m => .err m
    | .crash m => .crash m
    | .timeout => .timeout
  else
    match x with
    | .intV i =>
      match op with
      | .MINUS => .ok (.intV (wrap64 (-i)))
      | .PLUS => .ok (.intV i)
      | _ => .err ("unknown unary operator: " ++ tokName op)
    | _ => .err ("unknown unary operator: " ++ tokName op)

/-- One `recv.Binary(op, arg, side)` call (`value.go`): `none` models the
Go `(nil, nil)` "not handled" return.  `Int.Binary` requires an `Int`
argument and handles `+ - * /` with int64 wrap-around; division panics on
a zero divisor (Go runtime panic, nothing recovers it).  `String.Binary`
handles `+` with a `String` argument (concatenation).  No other variant
implements `HasBinary`, and both implementations ignore `side`. -/
def binaryDispatch (op : Tok) (recv arg : Value) : Option (Res Value) :=
  match recv with
  | .intV i =>
    match arg with
    | .intV j =>
      match op with
      | .PLUS => some (.ok (.intV (wrap64 (i + j))))
      | .MINUS => some (.ok (.intV (wrap64 (i - j))))
      | .STAR => some (.ok (.intV (wrap64 (i * j))))
      | .SLASH =>
        if j = 0 then some (.crash "runtime error: integer divide by zero")
        else some (.ok (.intV (wrap64 (Int.tdiv i j))))
      | _ => none
    | _ => none
  | .strV s =>
    match op, arg with
    | .PLUS, .strV t => some (.ok (.strV (s ++ t)))
    | _, _ => none
  | _ => none

/-- `Binary` of `eval.go`: ask the left operand first (side `Left`), then
the right one with swapped arguments (side `Right`); if neither handles
the combination the result is the `unknown binary operator` error (whose
Go text also renders both operands — elided here). -/
def Binary (op : Tok) (x y : Value) : Res Value :=
  match binaryDispatch op x y with
  | some r => r
  | none =>
    match binaryDispatch op y x with
    | some r => r
    | none => .err ("unknown binary operator: " ++ tokName op)

/-- `Compare` of `eval.go`: requires both operands to have the same
`Type()` string (`isSameType`; a nil operand would panic there).  `Bool`
is the only `Comparable` (three-way on `b2i`); `Int` is the only
`TotallyOrdered` (`Cmp` then `threeway`).  Same-typed values of any
other variant fall through to the `invalid cmp operator` error (whose Go
text also renders the operands — elided here). -/
def Compare (op : Tok) (x y : Value) : Res Value :=
  match x, y with
  | .nilV, _ => .crash nilMsg
  | _, .nilV => .crash nilMsg
  | _, _ =>
    if typeName x = typeName y then
      match x, y with
      | .boolV b, .boolV c =>
        .ok (.boolV (threeway op ((b2i b : Int) - (b2i c : Int))))
      | .intV i, .intV j =>
        .ok (.boolV (threeway op (if i > j then 1 else if i < j then -1 else 0)))
      | _, _ => .err "invalid cmp operator"
    else .err "invalid cmp operator"

/-- Go map read `m.entries[hash]` (`Map.entries` is keyed by the 32-bit
hash; the stored `MapEntry` is the `(Key, Value)` pair). -/
def lookupEntries : List (Nat × Value × Value) → Nat → Option (Value × Value)
  | [], _ => none
  | (h, kv) :: rest, hash => if h = hash then some kv else lookupEntries rest hash

/-- Go map write `entries[hash] = MapEntry{key, val}` (overwrite by hash
key). -/
def insertEntries : List (Nat × Value × Value) → Nat → Value × Value → List (Nat × Value × Value)
  | [], hash, kv => [(hash, kv)]
  | (h, old) :: rest, hash, kv =>
    if h = hash then (h, kv) :: rest
    else (h, old) :: insertEntries rest hash kv

/-- `Map.Get` of `value.go`: hash the probe value (propagating its error)
and look the hash — and nothing but the hash — up in `entries`; a hit
returns `(entry.Value, true)`, a miss `(Null, false)`. -/
def mapGet (ω : Oracle) (entries : List (Nat × Value × Value)) (v : Value) :
    Res (Value × Bool) :=
  match hashV ω v with
  | .ok hash =>
    match lookupEntries entries hash with
    | some kv => .ok (kv.2, true)
    | none => .ok (.nullV, false)
  | .err m => .err m
  | .crash m => .crash m
  | .timeout => .timeout

/-- `String.Index` of `value.go` is the Go byte-slice `s[i : i+1]`; the
slice panics unless `0 ≤ i` and `i+1 ≤ len(s)` (byte length). -/
def stringIndexGo (s : MStr) (i : Int) : Res Value :=
  if 0 ≤ i ∧ i + 1 ≤ (s.length : Int) then
    .ok (.strV ((s.drop i.toNat).take 1))
  else .crash "runtime error: slice bounds out of range"

/-- `Array.Index` of `value.go` is `a.items[i]`; panics out of bounds. -/
def arrayIndexGo (items : List Value) (i : Int) : Res Value :=
  if 0 ≤ i ∧ i < (items.length : Int) then
    .ok (items.getD i.toNat .nullV)
  else .crash "runtime error: index out of range"

/-- `parseIndexExpr` of `eval.go`: a `Mapping` (only `Map`) is probed via
`Get` — a found entry's value, otherwise `Null`; an `Indexable`
(`String`, `Array`) requires an `Int` index, converts a negative index
`iv` to `Len() + iv` (`String.Len` is the rune count, `Array.Len` the
item count) and calls `Index`; anything else is the `index operator not
supported` error.  The error paths format `Type()`, so a nil value there
panics. -/
def parseIndexExpr (ω : Oracle) (left index : Value) : Res Value :=
  match left with
  | .mapV entries =>
    match mapGet ω entries index with
    | .ok res => if res.2 then .ok res.1 else .ok .nullV
    | .err m => .err m
    | .crash m => .crash m
    | .timeout => .timeout
  | .strV s =>
    match index with
    | .intV iv =>
      stringIndexGo s (if iv < 0 then (goRuneCount s : Int) + iv else iv)
    | .nilV => .crash nilMsg
    | _ => .err ("invalid index type: " ++ typeName index)
  | .arrayV items =>
    match index with
    | .intV iv =>
      arrayIndexGo items (if iv < 0 then (items.length : Int) + iv else iv)
    | .nilV => .crash nilMsg
    | _ => .err ("invalid index type: " ++ typeName index)
  | .nilV => .crash nilMsg
  | _ => .err ("index operator not supported: " ++ typeName left)

/-- Nil test used to model Go panics on `arg.String()`. -/
def isNilV : Value → Bool
  | .nilV => true
  | _ => false

/-- The `Universe` builtins (`universe.go`): `len` accepts exactly one
`Indexable` argument (`String.Len` is the rune count, `Array.Len` the
item count; `Map` has no `Index` method and is *not* `Indexable`, so it
reaches the unsupported-argument error); `print` renders its arguments
(side effect elided) and returns `Null`. -/
def callBuiltin (name : String) (args : List Value) : Res Value :=
  if name = "len" then
    match args with
    | [arg0] =>
      match arg0 with
      | .strV s => .ok (.intV (goRuneCount s))
      | .arrayV items => .ok (.intV items.length)
      | .nilV => .crash nilMsg
      | _ => .err ("argument to `len` not supported, got " ++ typeName arg0)
    | _ =>
      .err ("wrong number of arguments. got=" ++ toString args.length ++ ", want=1")
  else if name = "print" then
    if args.any isNilV then .crash nilMsg else .ok .nullV
  else .crash "unknown builtin"

/-- Parameter binding loop of `Call` (`eval.go`):
`for idx, param := range value.Params { fnEnv.Set(param.Value, args[idx]) }`.
The loop indexes `args` positionally, so when a user function is called
with fewer arguments than parameters, `args[idx]` panics (index out of
range); extra arguments are silently ignored. -/
def bindParams : Heap → Nat → List String → List Value → Res Heap
  | h, _, [], _ => .ok h
  | h, env, p :: ps, a :: more => bindParams (envSet h env p a) env ps more
  | _, _, _ :: _, [] => .crash "runtime error: index out of range"

/-- A pending evaluator activation.  The mutually recursive pieces of
`eval.go` — `Eval` on an expression or a statement, `evalExprs`, the
pair loop of `evalMapLiteral`, `evalProgram`, `evalBlockStmt` and `Call`
— are folded into one fuel-indexed recursion over this sum so that the
whole evaluator is a single structurally recursive (hence executable)
function. -/
inductive Job : Type where
  | expr (env : Nat) (e : Expr)
  | stmt (env : Nat) (s : Stmt)
  | exprs (env : Nat) (es : List Expr)
  | pairs (env : Nat) (ps : List (Expr × Expr)) (entries : List (Nat × Value × Value))
  | program (env : Nat) (stmts : List Stmt) (value : Value)
  | block (env : Nat) (stmts : List Stmt) (value : Value)
  | call (fn : Value) (args : List Value)

/-- Result of a `Job`: a single value, or a value list for `Job.exprs`. -/
inductive Out : Type where
  | one (v : Value)
  | many (vs : List Value)

/-- Wrap a Go `(Value, error)` outcome as a `Job` outcome. -/
def liftV : Res Value → Res Out
  | .ok v => .ok (.one v)
  | .err m => .err m
  | .crash m => .crash m
  | .timeout => .timeout

/-- Project a `Job` outcome to a value outcome (`many` never occurs for
the jobs this is applied to). -/
def toVal : Res Out × Heap → Res Value × Heap
  | (.ok (.one v), h) => (.ok v, h)
  | (.ok (.many _), h) => (.crash "model artifact: list result", h)
  | (.err m, h) => (.err m, h)
  | (.crash m, h) => (.crash m, h)
  | (.timeout, h) => (.timeout, h)

/-- Project a `Job` outcome to a value-list outcome (`one` never occurs
for `Job.exprs`). -/
def toVals : Res Out × Heap → Res (List Value) × Heap
  | (.ok (.many vs), h) => (.ok vs, h)
  | (.ok (.one _), h) => (.crash "model artifact: single result", h)
  | (.err m, h) => (.err m, h)
  | (.crash m, h) => (.crash m, h)
  | (.timeout, h) => (.timeout, h)

/-- `eval.go` as one fuel-indexed recursion over `Job`.  Expression
cases: identifier resolution tries the environment chain, then the
`Universe` builtin table (`len`, `print`), then fails; literals build
the corresponding values; `InfixExpr` routes the six comparison tokens
to `Compare` and everything else to `Binary`; `IfExpr` takes the
consequence when the condition's `Truth()` holds, the alternative when
present, and yields `Null` otherwise; `FunctionLiteral` captures the
*current* environment; `CallExpr` evaluates the callee, then the
arguments left to right, then dispatches through `Call`'s logic
(`Job.call`).  Statement cases: an expression statement forwards its
expression's value; `let` binds the evaluated right-hand side in the
current environment and yields `Null`; `return` wraps its operand in the
`returnValue` sentinel; a block statement runs `evalBlockStmt`.
`Job.program` unwraps a `returnValue` once and stops; `Job.block` passes
it through unwrapped; `Job.pairs` is `evalMapLiteral`'s loop (hash-keyed
overwrite); `Job.call` allocates a frame over the *captured*
environment, binds parameters positionally (`bindParams`), evaluates
the body as a block and unwraps a `returnValue` — when the body result
is not a `returnValue` the Go code executes `return value, nil` where
`value` is the switched `*Function` itself, so the call yields the
function rather than the body's value; that slip is preserved
faithfully. -/
def evalGo : Nat → Oracle → Heap → Job → Res Out × Heap
  | 0, _, h, _ => (.timeout, h)
  | fuel + 1, ω, h, job =>
    match job with
    | .expr env e =>
      match e with
      | .ident name =>
        match envGet h env name with
        | some v => (.ok (.one v), h)
        | none =>
          if name = "len" || name = "print" then (.ok (.one (.builtinV name)), h)
          else (.err ("identifier not found: " ++ name), h)
      | .intLit v => (.ok (.one (.intV v)), h)
      | .boolLit b => (.ok (.one (.boolV b)), h)
      | .strLit s => (.ok (.one (.strV s)), h)
      | .arrayLit items =>
        match evalGo fuel ω h (.exprs env items) with
        | (.ok (.many vs), h1) => (.ok (.one (.arrayV vs)), h1)
        | other => other
      | .mapLit ps => evalGo fuel ω h (.pairs env (ω.mapIter ps) [])
      | .indexExpr l idx =>
        match evalGo fuel ω h (.expr env l) with
        | (.ok (.one lv), h1) =>
          match evalGo fuel ω h1 (.expr env idx) with
          | (.ok (.one iv), h2) => (liftV (parseIndexExpr ω lv iv), h2)
          | other => other
        | other => other
      | .prefixExpr op r =>
        match evalGo fuel ω h (.expr env r) with
        | (.ok (.one rv), h1) => (liftV (Unary op rv), h1)
        | other => other
      | .infixExpr op l r =>
        match evalGo fuel ω h (.expr env l) with
        | (.ok (.one lv), h1) =>
          match evalGo fuel ω h1 (.expr env r) with
          | (.ok (.one rv), h2) =>
            match op with
            | .EQ | .NE | .GT | .GE | .LT | .LE => (liftV (Compare op lv rv), h2)
            | _ => (liftV (Binary op lv rv), h2)
          | other => other
        | other => other
      | .ifExpr cond cons alt =>
        match evalGo fuel ω h (.expr env cond) with
        | (.ok (.one cv), h1) =>
          match truthB cv with
          | .ok true => evalGo fuel ω h1 (.block env cons .nilV)
          | .ok false =>
            match alt with
            | some b => evalGo fuel ω h1 (.block env b .nilV)
            | none => (.ok (.one .nullV), h1)
          | .err m => (.err m, h1)
          | .crash m => (.crash m, h1)
          | .timeout => (.timeout, h1)
        | other => other
      | .funcLit params body => (.ok (.one (.funcV params body env)), h)
      | .callExpr fn args =>
        match evalGo fuel ω h (.expr env fn) with
        | (.ok (.one fnv), h1) =>
          match evalGo fuel ω h1 (.exprs env args) with
          | (.ok (.many argvs), h2) => evalGo fuel ω h2 (.call fnv argvs)
          | other => other
        | other => other
    | .stmt env s =>
      match s with
      | .exprStmt e => evalGo fuel ω h (.expr env e)
      | .letStmt name e =>
        match evalGo fuel ω h (.expr env e) with
        | (.ok (.one v), h1) => (.ok (.one .nullV), envSet h1 env name v)
        | other => other
      | .returnStmt e =>
        match evalGo fuel ω h (.expr env e) with
        | (.ok (.one v), h1) => (.ok (.one (.returnV v)), h1)
        | other => other
      | .blockStmt stmts => evalGo fuel ω h (.block env stmts .nilV)
    | .exprs env es =>
      match es with
      | [] => (.ok (.many []), h)
      | e :: rest =>
        match evalGo fuel ω h (.expr env e) with
        | (.ok (.one v), h1) =>
          match evalGo fuel ω h1 (.exprs env rest) with
          | (.ok (.many vs), h2) => (.ok (.many (v :: vs)), h2)
          | other => other
        | other => other
    | .pairs env ps entries =>
      match ps with
      | [] => (.ok (.one (.mapV entries)), h)
      | (kExpr, vExpr) :: rest =>
        match evalGo fuel ω h (.expr env kExpr) with
        | (.ok (.one key), h1) =>
          match hashV ω key with
          | .ok hash =>
            match evalGo fuel ω h1 (.expr env vExpr) with
            | (.ok (.one val), h2) =>
              evalGo fuel ω h2 (.pairs env rest (insertEntries entries hash (key, val)))
            | other => other
          | .err m => (.err m, h1)
          | .crash m => (.crash m, h1)
          | .timeout => (.timeout, h1)
        | other => other
    | .program env stmts value =>
      match stmts with
      | [] => (.ok (.one value), h)
      | s :: rest =>
        match evalGo fuel ω h (.stmt env s) with
        | (.ok (.one v), h1) =>
          match v with
          | .returnV inner => (.ok (.one inner), h1)
          | _ => evalGo fuel ω h1 (.program env rest v)
        | other => other
    | .block env stmts value =>
      match stmts with
      | [] => (.ok (.one value), h)
      | s :: rest =>
        match evalGo fuel ω h (.stmt env s) with
        | (.ok (.one v), h1) =>
          match v with
          | .returnV inner => (.ok (.one (.returnV inner)), h1)
          | _ => evalGo fuel ω h1 (.block env rest v)
        | other => other
    | .call fn args =>
      match fn with
      | .funcV params body envIdx =>
        match newEnv h (some envIdx) with
        | (h1, fnEnv) =>
          match bindParams h1 fnEnv params args with
          | .ok h2 =>
            match evalGo fuel ω h2 (.block fnEnv body .nilV) with
            | (.ok (.one result), h3) =>
              match result with
              | .returnV rv => (.ok (.one rv), h3)
              | _ => (.ok (.one (.funcV params body envIdx)), h3)
            | other => other
          | .err m => (.err m, h1)
          | .crash m => (.crash m, h1)
          | .timeout => (.timeout, h1)
      | .builtinV name => (liftV (callBuiltin name args), h)
      | .nilV => (.crash nilMsg, h)
      | v => (.err ("invalid call of non-function (" ++ typeName v ++ ")"), h)

/-- `Eval` (`eval.go`) on an expression node. -/
def evalExpr (fuel : Nat) (ω : Oracle) (h : Heap) (env : Nat) (e : Expr) :
    Res Value × Heap :=
  toVal (evalGo fuel ω h (.expr env e))

/-- `Eval` (`eval.go`) on a statement node. -/
def evalStmt (fuel : Nat) (ω : Oracle) (h : Heap) (env : Nat) (s : Stmt) :
    Res Value × Heap :=
  toVal (evalGo fuel ω h (.stmt env s))

/-- `evalExprs` of `eval.go`: left-to-right, aborting on the first error. -/
def evalExprs (fuel : Nat) (ω : Oracle) (h : Heap) (env : Nat) (es : List Expr) :
    Res (List Value) × Heap :=
  toVals (evalGo fuel ω h (.exprs env es))

/-- `evalProgram` of `eval.go` (the carried value starts as `Null`). -/
def evalProgram (fuel : Nat) (ω : Oracle) (h : Heap) (env : Nat)
    (stmts : List Stmt) (value : Value) : Res Value × Heap :=
  toVal (evalGo fuel ω h (.program env stmts value))

/-- `evalBlockStmt` of `eval.go` (the carried value starts as Go's nil
`Value`; a `returnValue` passes through unwrapped). -/
def evalBlockStmt (fuel : Nat) (ω : Oracle) (h : Heap) (env : Nat)
    (stmts : List Stmt) (value : Value) : Res Value × Heap :=
  toVal (evalGo fuel ω h (.block env stmts value))

/-- `Call` of `eval.go`. -/
def Call (fuel : Nat) (ω : Oracle) (h : Heap) (fn : Value) (args : List Value) :
    Res Value × Heap :=
  toVal (evalGo fuel ω h (.call fn args))


/-- The root environment a driver creates (`monkey.NewEnv(nil)`). -/
def initHeap : Heap := ⟨[⟨[], none⟩]⟩

/-- A concrete admissible oracle: iterate map-literal pairs in insertion
order and hash long strings with FNV-1a. -/
def defaultOracle : Oracle := ⟨id, softHashString⟩

/-- `monkey.Eval` applied to a parsed `*syntax.Program` in a fresh root
environment (what the REPL and file runner do), projected to the result. -/
def runProgram (fuel : Nat) (ω : Oracle) (prog : List Stmt) : Res Value :=
  (evalProgram fuel ω initHeap 0 prog .nullV).1

/-- `isDigit` of `lexer.go` on a byte (`'0' ≤ c ≤ '9'`). -/
def isDigitB (c : Nat) : Bool := 48 ≤ c && c ≤ 57

/-- `readNumber` of `lexer.go`: collect the maximal ASCII digit run at
the cursor; returns the literal text and the remaining input. -/
def readNumber (input : MStr) : MStr × MStr :=
  (input.takeWhile isDigitB, input.dropWhile isDigitB)

/-- The per-digit accumulation loop of Go `strconv.ParseUint`: reject a
non-digit of the base, accumulate `acc*base + d`, and fail once the
accumulated value exceeds `maxVal` (Go phrases this as a pre-multiply
cutoff check plus a post-add overflow check; over exact naturals both
reduce to `acc*base + d > maxVal`).  Letter digits never reach the loop
here because `readNumber` only produces ASCII digit runs and the bases
in play are 8 and 10. -/
def parseUintLoop (base maxVal : Nat) : MStr → Nat → Option Nat
  | [], acc => some acc
  | c :: rest, acc =>
    if isDigitB c ∧ c - 48 < base then
      if acc * base + (c - 48) > maxVal then none
      else parseUintLoop base maxVal rest (acc * base + (c - 48))
    else none

/-- `strconv.ParseInt(raw, 0, 64)` as called by `parseIntegerLiteral`
(`parser.go`), restricted to the alphabet `readNumber` can produce
(nonempty ASCII digit runs: no sign, no `0x`/`0o`/`0b` prefix, no
underscores).  Base auto-detection therefore means: the literal `0` is
zero (base 10); a longer literal with a leading `0` is parsed in base 8
over its remaining digits (so `8`/`9` after the leading zero are a
syntax error); anything else is base 10.  The int64 range caps positive
values at `2^63 - 1`. -/
def goParseIntBase0 (s : MStr) : Option Int :=
  match s with
  | [] => none
  | c :: rest =>
    if c = 48 ∧ rest ≠ [] then
      (parseUintLoop 8 (2 ^ 63 - 1) rest 0).map Int.ofNat
    else
      (parseUintLoop 10 (2 ^ 63 - 1) (c :: rest) 0).map Int.ofNat

/-- `parseIntegerLiteral` of `parser.go`: `ParseInt(raw, 0, 64)`; a parse
failure panics `could not parse %q as integer`, which the lexer's
`recover` installed by `Parse` turns into the returned parse error. -/
def parseIntegerLiteral (raw : MStr) : Except String Int :=
  match goParseIntBase0 raw with
  | some v => .ok v
  | none => .error "could not parse integer literal"

/-- Positional value of a digit string in the given base (`digitsVal 10`
is the spec's "base-10 interpretation" of a literal). -/
def digitsVal (base : Nat) (s : MStr) : Nat :=
  s.foldl (fun a c => a * base + (c - 48)) 0

/-- The index `parseIndexExpr` actually slices an `Indexable` with: a
negative `i` is first converted to `Len() + i`. -/
def adjustedIdx (s : MStr) (i : Int) : Int :=
  if i < 0 then (goRuneCount s : Int) + i else i

/-- Observer: the integer carried by an evaluation result, if any. -/
def asInt : Res Value → Option Int
  | .ok (.intV i) => some i
  | _ => none

/-- Observer: whether an evaluation result is a `returnValue` signal. -/
def isReturnSignal : Res Value → Bool
  | .ok (.returnV _) => true
  | _ => false

/-- An admissible map-iteration oracle that happens to visit the pairs
of every map literal in reversed insertion order (Go's `range` order
over a map is unspecified, so any permutation is a legal schedule). -/
def revOracle : Oracle := ⟨List.reverse, softHashString⟩

/-- Body of `fn(a, b) { a + b }`. -/
def addBody : List Stmt := [.exprStmt (.infixExpr .PLUS (.ident "a") (.ident "b"))]

/-- `let add = fn(a, b) { a + b }; add(2, 3)` (spec scenario 1). -/
def progAdd : List Stmt :=
  [.letStmt "add" (.funcLit ["a", "b"] addBody),
   .exprStmt (.callExpr (.ident "add") [.intLit 2, .intLit 3])]

/-- Body of the inner closure `fn(y) { x + y }`. -/
def innerBody : List Stmt := [.exprStmt (.infixExpr .PLUS (.ident "x") (.ident "y"))]

/-- Body of `fn(x) { fn(y) { x + y } }`. -/
def makeBody : List Stmt := [.exprStmt (.funcLit ["y"] innerBody)]

/-- `let make = fn(x) { fn(y) { x + y } }; let addTwo = make(2); addTwo(40)`
(spec scenario 2). -/
def progMake : List Stmt :=
  [.letStmt "make" (.funcLit ["x"] makeBody),
   .letStmt "addTwo" (.callExpr (.ident "make") [.intLit 2]),
   .exprStmt (.callExpr (.ident "addTwo") [.intLit 40])]

/-- The duplicate-key pairs of the literal `{1:"a", 1:"b"}`, in source
order ("a" is byte 97, "b" is byte 98). -/
def dupPairs : List (Expr × Expr) :=
  [(.intLit 1, .strLit [97]), (.intLit 1, .strLit [98])]

/-- `{1:"a", 1:"b"}[1]` (the spec's map last-write-wins check). -/
def progMapDup : List Stmt :=
  [.exprStmt (.indexExpr (.mapLit dupPairs) (.intLit 1))]

/-- `return if (true) { return 3; };` — a Return statement whose operand
expression itself evaluates to a `returnValue`. -/
def progReturnIf : List Stmt :=
  [.returnStmt (.ifExpr (.boolLit true) [.returnStmt (.intLit 3)] none)]

/-- `1 / 0`. -/
def progDivZero : List Stmt :=
  [.exprStmt (.infixExpr .SLASH (.intLit 1) (.intLit 0))]

/-- `7 / 2`. -/
def progDivPos : List Stmt :=
  [.exprStmt (.infixExpr .SLASH (.intLit 7) (.intLit 2))]

/-- `-7 / 2` (unary minus applied syntactically, as the parser does). -/
def progDivNeg : List Stmt :=
  [.exprStmt (.infixExpr .SLASH (.prefixExpr .MINUS (.intLit 7)) (.intLit 2))]

/-- `let f = fn(a, b) { return a; }; f(1)` — one argument too few. -/
def progTooFew : List Stmt :=
  [.letStmt "f" (.funcLit ["a", "b"] [.returnStmt (.ident "a")]),
   .exprStmt (.callExpr (.ident "f") [.intLit 1])]

/-- `let g = fn(a) { return a; }; g(1, 2)` — one argument too many. -/
def progTooMany : List Stmt :=
  [.letStmt "g" (.funcLit ["a"] [.returnStmt (.ident "a")]),
   .exprStmt (.callExpr (.ident "g") [.intLit 1, .intLit 2])]

/-- Any single byte counts as one rune: ASCII decodes as itself and every
other lone byte decodes as `RuneError` of size 1. -/
theorem goRuneCount_singleton (b : Nat) : goRuneCount [b] = 1 := by
  show goRuneCountAux 1 [b] = 1
  unfold goRuneCountAux
  split <;> simp_all [goRuneCountAux]

/-- The digit-accumulation fold never decreases below its accumulator. -/
theorem digits_foldl_ge (base : Nat) (hb : 1 ≤ base) :
    ∀ (s : MStr) (acc : Nat),
      acc ≤ s.foldl (fun a c => a * base + (c - 48)) acc := by
  intro s
  induction s with
  | nil => intro acc; simp
  | cons c rest ih =>
    intro acc
    have h1 : acc ≤ acc * base := by
      simpa using Nat.mul_le_mul_left acc hb
    have h2 : acc ≤ acc * base + (c - 48) := le_trans h1 (Nat.le_add_right _ _)
    simpa [List.foldl] using le_trans h2 (ih (acc * base + (c - 48)))

/-- Go's cutoff-checked `ParseUint` loop agrees with the plain positional
fold whenever every character is a digit of the base and the final value
fits: no intermediate value can exceed the final one, so no cutoff
triggers. -/
theorem parseUintLoop_sound (base maxVal : Nat) (hb : 1 ≤ base) :
    ∀ (s : MStr) (acc : Nat),
      (∀ c ∈ s, isDigitB c = true ∧ c - 48 < base) →
      s.foldl (fun a c => a * base + (c - 48)) acc ≤ maxVal →
      parseUintLoop base maxVal s acc
        = some (s.foldl (fun a c => a * base + (c - 48)) acc) := by
  intro s
  induction s with
  | nil => intro acc _ _; simp [parseUintLoop]
  | cons c rest ih =>
    intro acc hdig hle
    have hc := hdig c (List.mem_cons_self _ _)
    have hfold :
        (c :: rest).foldl (fun a c => a * base + (c - 48)) acc
          = rest.foldl (fun a c => a * base + (c - 48)) (acc * base + (c - 48)) := by
      simp [List.foldl]
    rw [hfold] at hle ⊢
    have hover : ¬ acc * base + (c - 48) > maxVal :=
      not_lt.mpr (le_trans (digits_foldl_ge base hb rest _) hle)
    rw [parseUintLoop, if_pos ⟨hc.1, hc.2⟩, if_neg hover]
    exact ih _ (fun c' h' => hdig c' (List.mem_cons_of_mem _ h')) hle

/-- C1.  The claim says a user-function call whose body ends without an
explicit return yields the value of the body evaluated as a block, so
`let add = fn(a, b) { a + b }; add(2, 3)` evaluates to `Int 5`.  On the
code, `Call` (eval.go) executes `return value, nil` — `value` being the
switched `*Function` itself, not the block result — so the program
evaluates to the `add` function value and not to any integer. -/
theorem c1_implicit_return_yields_function :
    runProgram 100 defaultOracle progAdd = .ok (.funcV ["a", "b"] addBody 0)
    ∧ asInt (runProgram 100 defaultOracle progAdd) = none :=
  ⟨rfl, rfl⟩

/-- C2.  The claim's closure example
`let make = fn(x) { fn(y) { x + y } }; let addTwo = make(2); addTwo(40)`
is said to evaluate to `Int 42`.  On the code, `make(2)` already returns
the `make` function itself (its body ends without a return statement),
so `addTwo` is `make`, and `addTwo(40)` again returns `make`: the
program evaluates to the `make` function value, not to any integer. -/
theorem c2_closure_example_yields_function :
    runProgram 100 defaultOracle progMake = .ok (.funcV ["x"] makeBody 0)
    ∧ asInt (runProgram 100 defaultOracle progMake) = none :=
  ⟨rfl, rfl⟩

/-- C3.  The claim says map-literal pairs are processed in source order
with last-write-wins, so `{1:"a", 1:"b"}[1]` is always `"b"`.  The
parser stores the pairs in the Go map `Pairs map[Expr]Expr` and
`evalMapLiteral` ranges over it in unspecified order: under the
insertion-order schedule the program yields `"b"`, under the (equally
admissible) reversed schedule it yields `"a"` — the result depends on
Go's map iteration order. -/
theorem c3_map_literal_order_dependent :
    (revOracle.mapIter dupPairs).Perm dupPairs
    ∧ runProgram 100 defaultOracle progMapDup = .ok (.strV [98])
    ∧ runProgram 100 revOracle progMapDup = .ok (.strV [97])
    ∧ ([97] : MStr) ≠ [98] :=
  ⟨List.reverse_perm _, rfl, rfl, by decide⟩

/-- C4.  The claim says the top-level evaluator never returns a
ReturnSignal.  Evaluating `return if (true) { return 3; };` wraps the
if-expression's result — itself already a `returnValue` — in a second
`returnValue`; `evalProgram` unwraps only one layer, so `monkey.Eval`
hands a ReturnSignal to its caller. -/
theorem c4_return_signal_escapes :
    runProgram 100 defaultOracle progReturnIf = .ok (.returnV (.intV 3))
    ∧ isReturnSignal (runProgram 100 defaultOracle progReturnIf) = true :=
  ⟨rfl, rfl⟩

/-- C5.  The claim says `x / y` truncates toward zero and `x / 0` yields
a runtime error result rather than a crash.  On the code, `Int.Binary`
evaluates the Go expression `i / yv` directly: `7 / 2 = 3` and
`-7 / 2 = -3` (truncation toward zero), but `1 / 0` raises the Go
runtime panic `integer divide by zero`, which nothing on the evaluation
path recovers — the interpreter crashes instead of returning an error. -/
theorem c5_division_truncates_and_div_zero_panics :
    runProgram 100 defaultOracle progDivZero
      = .crash "runtime error: integer divide by zero"
    ∧ runProgram 100 defaultOracle progDivPos = .ok (.intV 3)
    ∧ runProgram 100 defaultOracle progDivNeg = .ok (.intV (-3)) :=
  ⟨rfl, rfl, rfl⟩

/-- C6.  The claim says an argument-count mismatch on a user-function
call yields an error.  `Call` performs no arity check: with one argument
for two parameters, `args[idx]` panics (index out of range — a crash,
not an error result); with two arguments for one parameter, the extra
argument is silently ignored and the call succeeds. -/
theorem c6_call_arity_mismatch_not_an_error :
    runProgram 100 defaultOracle progTooFew
      = .crash "runtime error: index out of range"
    ∧ runProgram 100 defaultOracle progTooMany = .ok (.intV 1) :=
  ⟨rfl, rfl⟩

/-- C7.  The truthiness table, exactly as claimed: `Null` is false,
`Bool b` is `b`, `Int i` is false iff `i = 0`, `String s` is false iff
`s` is empty, and Array, Map, Function and Builtin values are always
true. -/
theorem c7_truthiness_table :
    truthB .nullV = .ok false
    ∧ (∀ b, truthB (.boolV b) = .ok b)
    ∧ (∀ i : Int, truthB (.intV i) = .ok (decide (i ≠ 0)))
    ∧ (∀ s : MStr, truthB (.strV s) = .ok (decide (s ≠ [])))
    ∧ (∀ items, truthB (.arrayV items) = .ok true)
    ∧ (∀ entries, truthB (.mapV entries) = .ok true)
    ∧ (∀ params body env, truthB (.funcV params body env) = .ok true)
    ∧ (∀ name, truthB (.builtinV name) = .ok true) := by
  refine ⟨rfl, fun b => rfl, fun i => ?_, fun s => ?_,
    fun _ => rfl, fun _ => rfl, fun _ _ _ => rfl, fun _ => rfl⟩
  · rcases eq_or_ne i 0 with h | h <;> simp [truthB, h]
  · simp [truthB, List.length_pos]

/-- C8.  Indexing a String with an in-bounds Int (bounds taken on the
index `parseIndexExpr` actually slices with, after the negative-index
adjustment) yields a length-one string — a single byte, which the
language's own `len` also reports as 1 — namely the byte at the adjusted
position; and a negative index `i` addresses position `length + i`,
i.e. gives exactly the result of indexing with `Len() + i`. -/
theorem c8_string_index_single (ω : Oracle) (s : MStr) (i : Int)
    (hlo : 0 ≤ adjustedIdx s i)
    (hhi : adjustedIdx s i + 1 ≤ (s.length : Int)) :
    (∃ b, parseIndexExpr ω (.strV s) (.intV i) = .ok (.strV [b])
        ∧ goRuneCount [b] = 1
        ∧ (s.drop (adjustedIdx s i).toNat).take 1 = [b])
    ∧ (i < 0 →
        parseIndexExpr ω (.strV s) (.intV i)
          = parseIndexExpr ω (.strV s) (.intV ((goRuneCount s : Int) + i))) := by
  have hidx : parseIndexExpr ω (.strV s) (.intV i)
      = stringIndexGo s (adjustedIdx s i) := by
    simp [parseIndexExpr, adjustedIdx]
  have hn : (adjustedIdx s i).toNat < s.length := by omega
  constructor
  · have htake : (s.drop (adjustedIdx s i).toNat).take 1
        = [s.get ⟨(adjustedIdx s i).toNat, hn⟩] := by
      rw [List.drop_eq_getElem_cons hn]
      rfl
    refine ⟨s.get ⟨(adjustedIdx s i).toNat, hn⟩, ?_, goRuneCount_singleton _, htake⟩
    rw [hidx]
    unfold stringIndexGo
    rw [if_pos ⟨hlo, hhi⟩, htake]
  · intro hneg
    have h1 : adjustedIdx s i = (goRuneCount s : Int) + i := if_pos hneg
    have h2 : adjustedIdx s ((goRuneCount s : Int) + i)
        = (goRuneCount s : Int) + i := by
      unfold adjustedIdx
      rw [if_neg (by omega)]
    have hidx2 : parseIndexExpr ω (.strV s) (.intV ((goRuneCount s : Int) + i))
        = stringIndexGo s (adjustedIdx s ((goRuneCount s : Int) + i)) := by
      simp [parseIndexExpr, adjustedIdx]
    rw [hidx, hidx2, h1, h2]

/-- C8 witness: indexing the string "abc" with `-1` returns the one-byte
string "c" (byte 99), the byte at adjusted position `3 + (-1) = 2`, and
agrees with indexing at `Len() + (-1)`. -/
theorem c8_string_index_single_witness :
    (0 ≤ adjustedIdx [97, 98, 99] (-1)
      ∧ adjustedIdx [97, 98, 99] (-1) + 1 ≤ (([97, 98, 99] : MStr).length : Int))
    ∧ (∃ b, parseIndexExpr defaultOracle (.strV [97, 98, 99]) (.intV (-1))
          = .ok (.strV [b])
        ∧ goRuneCount [b] = 1
        ∧ (([97, 98, 99] : MStr).drop (adjustedIdx [97, 98, 99] (-1)).toNat).take 1 = [b])
    ∧ ((-1 : Int) < 0 →
        parseIndexExpr defaultOracle (.strV [97, 98, 99]) (.intV (-1))
          = parseIndexExpr defaultOracle (.strV [97, 98, 99])
              (.intV ((goRuneCount [97, 98, 99] : Int) + -1))) :=
  ⟨⟨by decide, by decide⟩,
   (c8_string_index_single defaultOracle [97, 98, 99] (-1) (by decide) (by decide)).1,
   (c8_string_index_single defaultOracle [97, 98, 99] (-1) (by decide) (by decide)).2⟩

/-- Extract the numeric bounds of a digit byte. -/
theorem isDigitB_bounds {c : Nat} (h : isDigitB c = true) : 48 ≤ c ∧ c ≤ 57 := by
  simpa [isDigitB] using h

/-- C9 (amended).  `parseIntegerLiteral` feeds the digit run to
`strconv.ParseInt` with base 0, not base 10: a literal that does not
start with `0` parses to its base-10 value (when it fits in int64),
while a longer literal with a leading `0` parses its remaining digits in
base 8. -/
theorem c9_int_literal_base0 (s : MStr) (hdig : ∀ c ∈ s, isDigitB c = true) :
    (∀ c rest, s = c :: rest → c ≠ 48 → digitsVal 10 s ≤ 2 ^ 63 - 1 →
        parseIntegerLiteral s = .ok (digitsVal 10 s))
    ∧ (∀ rest, s = 48 :: rest → rest ≠ [] → (∀ b ∈ rest, b ≤ 55) →
        digitsVal 8 rest ≤ 2 ^ 63 - 1 →
        parseIntegerLiteral s = .ok (digitsVal 8 rest)) := by
  constructor
  · rintro c rest rfl hc hle
    have hdig10 : ∀ c' ∈ c :: rest, isDigitB c' = true ∧ c' - 48 < 10 := by
      intro c' h'
      have hb := isDigitB_bounds (hdig c' h')
      exact ⟨hdig c' h', by omega⟩
    have hloop := parseUintLoop_sound 10 (2 ^ 63 - 1) (by omega) (c :: rest) 0 hdig10 hle
    show parseIntegerLiteral (c :: rest) = .ok (digitsVal 10 (c :: rest))
    simp only [parseIntegerLiteral, goParseIntBase0]
    rw [if_neg (fun h => hc h.1), hloop]
    rfl
  · rintro rest rfl hne hoct hle
    have hdig8 : ∀ c' ∈ rest, isDigitB c' = true ∧ c' - 48 < 8 := by
      intro c' h'
      have hb := isDigitB_bounds (hdig c' (List.mem_cons_of_mem _ h'))
      have ho := hoct c' h'
      exact ⟨hdig c' (List.mem_cons_of_mem _ h'), by omega⟩
    have hloop := parseUintLoop_sound 8 (2 ^ 63 - 1) (by omega) rest 0 hdig8 hle
    show parseIntegerLiteral (48 :: rest) = .ok (digitsVal 8 rest)
    simp only [parseIntegerLiteral, goParseIntBase0]
    rw [if_pos ⟨by simp, hne⟩, hloop]
    rfl

/-- C9 witness: the decimal literal `12` parses to 12 and the
leading-zero literal `010` parses to 8. -/
theorem c9_int_literal_base0_witness :
    parseIntegerLiteral [49, 50] = .ok 12
    ∧ parseIntegerLiteral [48, 49, 48] = .ok 8 := by
  constructor
  · exact (c9_int_literal_base0 [49, 50] (by decide)).1 49 [50] rfl
      (by decide) (by decide)
  · exact (c9_int_literal_base0 [48, 49, 48] (by decide)).2 [49, 48] rfl
      (by decide) (by decide) (by decide)

/-- C9 counterexample: the lexer scans the maximal digit run `010` as one
INT token, and the parsed IntegerLiteral's value is 8 — the octal, not
the base-10, interpretation of the literal text. -/
theorem c9_leading_zero_is_octal_counterexample :
    readNumber [48, 49, 48] = ([48, 49, 48], [])
    ∧ parseIntegerLiteral [48, 49, 48] = .ok 8
    ∧ parseIntegerLiteral [48, 49, 48] ≠ .ok 10 := by
  refine ⟨rfl, rfl, fun h => ?_⟩
  rw [show parseIntegerLiteral [48, 49, 48] = .ok 8 from rfl] at h
  simp at h

/-- C10.  `Map.Get` resolves a probe by its 32-bit hash alone — any two
keys with equal hashes index to the same result in every map — and since
`Null` and `Bool(false)` both hash to 0, the map `{false: 7}` answers
`7` to a lookup with key `null` (instead of the `Null` a missing key
would produce). -/
theorem c10_map_lookup_by_hash_only :
    (∀ (ω : Oracle) (entries : List (Nat × Value × Value)) (k1 k2 : Value)
        (hsh : Nat),
        hashV ω k1 = .ok hsh → hashV ω k2 = .ok hsh →
        parseIndexExpr ω (.mapV entries) k1 = parseIndexExpr ω (.mapV entries) k2)
    ∧ (evalExpr 100 defaultOracle initHeap 0
        (.mapLit [(.boolLit false, .intLit 7)])).1
        = .ok (.mapV [(0, .boolV false, .intV 7)])
    ∧ hashV defaultOracle .nullV = .ok 0
    ∧ hashV defaultOracle (.boolV false) = .ok 0
    ∧ parseIndexExpr defaultOracle (.mapV [(0, .boolV false, .intV 7)]) .nullV
        = .ok (.intV 7) := by
  refine ⟨?_, rfl, rfl, rfl, rfl⟩
  intro ω entries k1 k2 hsh h1 h2
  simp [parseIndexExpr, mapGet, h1, h2]

/-- C10 witness: in the map built from `{false: 7}`, looking up with key
`null` and with key `false` give the same result. -/
theorem c10_map_lookup_by_hash_only_witness :
    parseIndexExpr defaultOracle (.mapV [(0, .boolV false, .intV 7)]) .nullV
      = parseIndexExpr defaultOracle (.mapV [(0, .boolV false, .intV 7)])
          (.boolV false) :=
  c10_map_lookup_by_hash_only.1 defaultOracle [(0, .boolV false, .intV 7)]
    .nullV (.boolV false) 0 rfl rfl

end Monkey
